import Mathlib

/-!
# Verification of the gigabroom scan engine

A shallow embedding of the gigabroom source (src/scanner.rs, src/cache.rs,
src/utils.rs, src/main.rs, src/types.rs) over a list-of-entries filesystem
model, together with theorems settling the frozen claims about it.

Modelling conventions:
* A filesystem is a finite list of entries; an entry is a path (list of
  components, absolute, root = `[]`) plus a kind (regular file with a byte
  size, or directory).  Symlinks, permissions and I/O errors are not
  modelled: probe failures in the source degrade to `false`/skip, which a
  total model realises by total lookups.
* Rust `Path::file_name` is the last component, `Path::parent` drops it
  (`None` on the empty path), `Path::exists`/`is_dir` are lookups.
* Machine integers (`u64`, sizes) are `Nat`; the only place overflow
  matters is `parse_size`, where Rust's `u64: FromStr` rejects values
  ≥ 2^64 and `saturating_mul` clamps at 2^64 - 1, both modelled explicitly.
* walkdir's `WalkDir::max_depth(d)` yields entries of depth ≤ d (root at
  depth 0); `filter_entry(pred)` drops every entry on which `pred` is
  false *and* does not descend into it (per walkdir's documentation the
  entry itself is not yielded).  The traversal-order of siblings is the
  entry order of the filesystem list.
* Progress bars, terminal output and timestamps-for-display are ignored;
  `last_modified` (display-only metadata) is omitted from the item model.
* JSON (de)serialisation in the cache is modelled as the identity on the
  record, and the best-effort `fs::write` as succeeding.
-/

namespace Gigabroom

/-- Kind of a filesystem entry: a regular file with its byte length, or a
directory. -/
inductive FSKind where
  | file (size : Nat)
  | dir
deriving DecidableEq, Repr

/-- One filesystem entry: an absolute path (list of components) and a kind. -/
structure FSEntry where
  path : List String
  kind : FSKind
deriving DecidableEq, Repr

/-- A filesystem snapshot: the finite list of entries that exist. -/
abbrev FS := List FSEntry

/-- `Path::exists`: some entry has this path. -/
def existsPath (fs : FS) (p : List String) : Bool :=
  fs.any (fun e => e.path == p)

/-- Whether a kind is a directory. -/
def FSKind.isDirKind : FSKind → Bool
  | .dir => true
  | .file _ => false

/-- `Path::is_dir`: some directory entry has this path. -/
def isDir (fs : FS) (p : List String) : Bool :=
  fs.any (fun e => e.path == p && e.kind.isDirKind)

/-- `Path::parent`: drop the last component (`None` for the root/empty path). -/
def parentDir (p : List String) : Option (List String) :=
  match p with
  | [] => none
  | _ :: _ => some p.dropLast

/-- Names of the direct children of `p` (the `read_dir` listing). -/
def childNames (fs : FS) (p : List String) : List String :=
  fs.filterMap (fun e => if e.path.dropLast == p then e.path.getLast? else none)

/-- Byte length of the regular file at `p` (`metadata(..).len()`), 0 when
absent or a directory (the source's `unwrap_or(0)`). -/
def fileLen (fs : FS) (p : List String) : Nat :=
  match fs.find? (fun e => e.path == p) with
  | some e =>
    match e.kind with
    | .file s => s
    | .dir => 0
  | none => 0

/-- Render a path the way `Path::to_str` shows an absolute path
(`/c1/c2/...`), for the substring probes of the classifier.  (Lean's
built-in `String` functions use position loops the kernel cannot evaluate,
so the Rust `str` operations are modelled structurally on `List Char`.) -/
def pathStr (p : List String) : String :=
  ⟨(p.map (fun c => '/' :: c.toList)).flatten⟩

/-- Bool-valued substring test on character lists. -/
def hasSubstrList (pat : List Char) : List Char → Bool
  | [] => pat.isPrefixOf []
  | c :: t => pat.isPrefixOf (c :: t) || hasSubstrList pat t

/-- Rust's `str::contains` for a literal pattern. -/
def containsSubstr (s pat : String) : Bool :=
  hasSubstrList pat.toList s.toList

/-- Rust's `str::ends_with` for a literal pattern. -/
def strEndsWith (s pat : String) : Bool :=
  pat.toList.isSuffixOf s.toList

/-- The `Category` enumeration from src/types.rs. -/
inductive Category where
  | RustTarget
  | NodeModules
  | PythonCache
  | PHPVendor
  | RubyGems
  | MavenTarget
  | GradleBuild
  | GoVendor
  | CCache
  | DotNetBuild
  | SwiftBuild
  | IDECache
  | OSJunk
  | TempFiles
  | PackageCache
  | BuildCache
deriving DecidableEq, Repr

/-- `is_cargo_target` (src/utils.rs): the parent contains `Cargo.toml`. -/
def is_cargo_target (fs : FS) (p : List String) : Bool :=
  match parentDir p with
  | some par => existsPath fs (par ++ ["Cargo.toml"])
  | none => false

/-- `is_maven_target` (src/scanner.rs): the parent contains `pom.xml`. -/
def is_maven_target (fs : FS) (p : List String) : Bool :=
  match parentDir p with
  | some par => existsPath fs (par ++ ["pom.xml"])
  | none => false

/-- `is_gradle_build`: the parent contains `build.gradle`(.kts). -/
def is_gradle_build (fs : FS) (p : List String) : Bool :=
  match parentDir p with
  | some par =>
    existsPath fs (par ++ ["build.gradle"]) || existsPath fs (par ++ ["build.gradle.kts"])
  | none => false

/-- `is_composer_vendor`: the parent contains `composer.json`. -/
def is_composer_vendor (fs : FS) (p : List String) : Bool :=
  match parentDir p with
  | some par => existsPath fs (par ++ ["composer.json"])
  | none => false

/-- `is_go_vendor`: the parent contains `go.mod` or `go.sum`. -/
def is_go_vendor (fs : FS) (p : List String) : Bool :=
  match parentDir p with
  | some par => existsPath fs (par ++ ["go.mod"]) || existsPath fs (par ++ ["go.sum"])
  | none => false

/-- `is_swift_build`: the parent contains `Package.swift`. -/
def is_swift_build (fs : FS) (p : List String) : Bool :=
  match parentDir p with
  | some par => existsPath fs (par ++ ["Package.swift"])
  | none => false

/-- `is_ruby_bundler`: the parent contains `Gemfile` or `Gemfile.lock`. -/
def is_ruby_bundler (fs : FS) (p : List String) : Bool :=
  match parentDir p with
  | some par => existsPath fs (par ++ ["Gemfile"]) || existsPath fs (par ++ ["Gemfile.lock"])
  | none => false

/-- `is_dotnet_build`: the parent's `read_dir` listing has a `.csproj`,
`.vbproj` or `.fsproj` entry, and the sibling counterpart folder (`obj` for
`bin`, `bin` for `obj`) exists.  A failed `read_dir` (parent missing or not
a directory) is `unwrap_or(false)`. -/
def is_dotnet_build (fs : FS) (p : List String) : Bool :=
  let dir_name := p.getLast?.getD ""
  match parentDir p with
  | some par =>
    let has_project_file :=
      isDir fs par && (childNames fs par).any (fun s =>
        strEndsWith s ".csproj" || strEndsWith s ".vbproj" || strEndsWith s ".fsproj")
    if !has_project_file then false
    else if dir_name == "bin" then existsPath fs (par ++ ["obj"])
    else if dir_name == "obj" then existsPath fs (par ++ ["bin"])
    else false
  | none => false

/-- `is_dotnet_packages`: the grandparent's listing has a `.sln` entry. -/
def is_dotnet_packages (fs : FS) (p : List String) : Bool :=
  match parentDir p with
  | some par =>
    match parentDir par with
    | some gp => isDir fs gp && (childNames fs gp).any (fun s => strEndsWith s ".sln")
    | none => false
  | none => false

/-- `is_deletable` (src/scanner.rs lines 14-123): the classifier.  The Rust
`match` with guards is translated arm-for-arm into a first-match-wins
chain. -/
def is_deletable (fs : FS) (p : List String) : Option Category :=
  match p.getLast? with
  | none => none
  | some file_name =>
    let is_dir := isDir fs p
    if file_name == "target" && is_dir && is_cargo_target fs p then some .RustTarget
    else if file_name == "node_modules" && is_dir then some .NodeModules
    else if file_name == "__pycache__" && is_dir then some .PythonCache
    else if file_name == ".pytest_cache" && is_dir then some .PythonCache
    else if file_name == ".tox" && is_dir then some .PythonCache
    else if file_name == "venv" && is_dir then some .PythonCache
    else if file_name == ".venv" && is_dir then some .PythonCache
    else if file_name == "target" && is_dir && is_maven_target fs p then some .MavenTarget
    else if file_name == "build" && is_dir && is_gradle_build fs p then some .GradleBuild
    else if file_name == ".gradle" && is_dir then some .GradleBuild
    else if file_name == "vendor" && is_dir && is_composer_vendor fs p then some .PHPVendor
    else if file_name == "vendor" && is_dir && is_go_vendor fs p then some .GoVendor
    else if file_name == "CMakeFiles" && is_dir then some .CCache
    else if file_name == "bin" && is_dir && is_dotnet_build fs p then some .DotNetBuild
    else if file_name == "obj" && is_dir && is_dotnet_build fs p then some .DotNetBuild
    else if file_name == "packages" && is_dir && is_dotnet_packages fs p then some .DotNetBuild
    else if file_name == ".build" && is_dir && is_swift_build fs p then some .SwiftBuild
    else if file_name == "DerivedData" && is_dir then some .SwiftBuild
    else if file_name == ".idea" && is_dir then some .IDECache
    else if file_name == ".vscode" && is_dir then some .IDECache
    else if file_name == ".vs" && is_dir then some .IDECache
    else if file_name == "vendor" && is_dir && is_ruby_bundler fs p then some .RubyGems
    else if file_name == ".bundle" && is_dir then some .RubyGems
    else if file_name == ".DS_Store" then some .OSJunk
    else if file_name == "Thumbs.db" then some .OSJunk
    else if file_name == "desktop.ini" then some .OSJunk
    else if file_name == ".localized" then some .OSJunk
    else if file_name == ".sass-cache" && is_dir then some .TempFiles
    else if file_name == ".parcel-cache" && is_dir then some .TempFiles
    else if file_name == ".cache" && is_dir then some .TempFiles
    else if file_name == "build" && is_dir then some .BuildCache
    else if file_name == "dist" && is_dir then some .BuildCache
    else if file_name == "out" && is_dir then some .BuildCache
    else if strEndsWith file_name ".pyc" || strEndsWith file_name ".pyo" then some .PythonCache
    else if strEndsWith file_name ".o" || strEndsWith file_name ".a" || file_name == "a.out" then
      some .CCache
    else if strEndsWith file_name ".log" then some .TempFiles
    else if strEndsWith file_name ".tmp" || strEndsWith file_name ".temp" then some .TempFiles
    else if containsSubstr (pathStr p) "/.npm/_cacache" then some .PackageCache
    else if containsSubstr (pathStr p) "/.cache/pip" then some .PackageCache
    else if containsSubstr (pathStr p) "/.cache/yarn" then some .PackageCache
    else if containsSubstr (pathStr p) "/.m2/repository" then some .PackageCache
    else none

/-! ## Size parsing (src/utils.rs `parse_size`) -/

/-- Rust `str::trim` on a character list: whitespace stripped from both
ends. -/
def trimChars (l : List Char) : List Char :=
  ((l.dropWhile Char.isWhitespace).reverse.dropWhile Char.isWhitespace).reverse

/-- Decimal value of a digit list (`None` on a non-digit). -/
def digitsVal (l : List Char) : Option Nat :=
  l.foldl
    (fun acc c =>
      match acc with
      | none => none
      | some n => if c.isDigit then some (n * 10 + (c.toNat - 48)) else none)
    (some 0)

/-- Rust `u64::from_str` on a character list: optional leading `+`, then a
non-empty run of decimal digits, value below 2^64. -/
def parseU64 (l : List Char) : Option Nat :=
  let l := match l with
    | '+' :: t => t
    | _ => l
  if l.isEmpty then none
  else
    match digitsVal l with
    | some n => if n < 2 ^ 64 then some n else none
    | none => none

/-- `u64::saturating_mul`. -/
def satMul (a b : Nat) : Nat :=
  min (a * b) (2 ^ 64 - 1)

/-- `parse_size` (src/utils.rs lines 64-87): trim, uppercase (the size
strings are ASCII, so uppercasing is `Char.toUpper`), strip a unit suffix
(`TB`/`GB`/`MB`/`KB`/`B`, in that order, no suffix = bytes), parse the
number, saturating-multiply by the unit. -/
def parse_size (size_str : String) : Except String Nat :=
  let s : List Char := (trimChars size_str.toList).map Char.toUpper
  let p : List Char × Nat :=
    if ['T', 'B'].isSuffixOf s then (s.dropLast.dropLast, 1024 ^ 4)
    else if ['G', 'B'].isSuffixOf s then (s.dropLast.dropLast, 1024 ^ 3)
    else if ['M', 'B'].isSuffixOf s then (s.dropLast.dropLast, 1024 ^ 2)
    else if ['K', 'B'].isSuffixOf s then (s.dropLast.dropLast, 1024)
    else if ['B'].isSuffixOf s then (s.dropLast, 1)
    else (s, 1)
  match parseU64 (trimChars p.1) with
  | some n => .ok (satMul n p.2)
  | none => .error ("Invalid size format: " ++ String.mk s)

deriving instance DecidableEq for Except

/-! ## Items and the size aggregator -/

/-- `DeletableItem` (src/types.rs), without the display-only
`last_modified` timestamp. -/
structure DeletableItem where
  path : List String
  size : Nat
  category : Category
  project_name : String
deriving DecidableEq, Repr

/-- `get_project_name` (src/utils.rs): the parent directory's file name,
or "Unknown". -/
def get_project_name (p : List String) : String :=
  match parentDir p with
  | some par =>
    match par.getLast? with
    | some n => n
    | none => "Unknown"
  | none => "Unknown"

/-- `calculate_dir_size_parallel` (src/scanner.rs lines 243-256): the sum
of the byte lengths of every regular file at or below `p` (an unbounded
`WalkDir`, files only). -/
def calculate_dir_size_parallel (fs : FS) (p : List String) : Nat :=
  (fs.filterMap (fun e =>
    match e.kind with
    | .file s => if p.isPrefixOf e.path then some s else none
    | .dir => none)).sum

/-- The second pass of both scan engines (src/scanner.rs lines 358-384 and
555-575): size a recorded candidate and build the item. -/
def mkItem (fs : FS) (pc : List String × Category) : DeletableItem :=
  { path := pc.1
    size := if isDir fs pc.1 then calculate_dir_size_parallel fs pc.1 else fileLen fs pc.1
    category := pc.2
    project_name := get_project_name pc.1 }

/-! ## The walking scan engine (src/scanner.rs `scan_directory`)

`WalkDir::new(path).max_depth(d).filter_entry(pred)`: depth-first from the
root (depth 0), yielding entries of depth ≤ d; an entry on which `pred` is
false is not yielded and not descended into (walkdir's documented
`filter_entry` semantics: "If the predicate is false, the entry is ignored
and if it is a directory, it is not descended into").  The predicate of
`scan_directory` returns true for the root and false exactly on entries the
classifier marks deletable. -/

/-- The sequence of paths yielded by the filtered, depth-bounded walk,
starting at `p` with `fuel` remaining depth. -/
def walkFiltered (fs : FS) (root : List String) : Nat → List String → List (List String)
  | 0, p => [p]
  | fuel + 1, p =>
    p ::
      (if isDir fs p then
        (childNames fs p).flatMap (fun c =>
          let q := p ++ [c]
          if q == root || (is_deletable fs q).isNone then walkFiltered fs root fuel q
          else [])
      else [])

/-- All entries yielded by the phase-1 iteration of `scan_directory` (a
missing root produces a single error entry, dropped by `filter_map(ok)`). -/
def walkEntries (fs : FS) (root : List String) (max_depth : Nat) : List (List String) :=
  if existsPath fs root then walkFiltered fs root max_depth root else []

/-- Phase 1 of `scan_directory` (lines 279-328): the recorded
`(path, category)` candidates, in traversal order. -/
def scan_candidates (fs : FS) (root : List String) (max_depth : Nat) :
    List (List String × Category) :=
  (walkEntries fs root max_depth).filterMap
    (fun q => (is_deletable fs q).map (fun c => (q, c)))

/-- `scan_directory` (src/scanner.rs lines 259-389): phase-1 candidate
collection followed by phase-2 sizing. -/
def scan_directory (fs : FS) (root : List String) (max_depth : Nat) : List DeletableItem :=
  (scan_candidates fs root max_depth).map (mkItem fs)

/-! ## The result cache (src/cache.rs)

Wall-clock time is modelled in whole seconds as `Nat` (the code compares
`elapsed.as_secs()`).  The cache file is an `Option ScanCache` (missing, or
present and parsing — `serde` round-trips the record, so (de)serialisation
is the identity); `Path::exists` at load time is an arbitrary predicate
since the disk may have changed since the scan. -/

/-- `CACHE_VALIDITY_SECONDS` (src/cache.rs line 22). -/
def CACHE_VALIDITY_SECONDS : Nat := 300

/-- `ScanCache` (src/types.rs lines 100-105). -/
structure ScanCache where
  scan_path : List String
  scan_time : Nat
  items : List DeletableItem
  max_depth : Nat
deriving DecidableEq, Repr

/-- The world the cache module runs in: the cache file's contents, the
current clock, and which paths currently exist on disk. -/
structure CacheWorld where
  cacheFile : Option ScanCache
  now : Nat
  pathExists : List String → Bool

/-- `SystemTime::elapsed`: `Ok(now - t)` when `t` is not in the future,
`Err` otherwise. -/
def elapsedSecs (now t : Nat) : Option Nat :=
  if t ≤ now then some (now - t) else none

/-- `load_cache` (src/cache.rs lines 79-109): require the file, matching
`scan_path`/`max_depth`, and — only when the elapsed time is computable —
elapsed ≤ 300 s; then filter out items whose paths no longer exist. -/
def load_cache (w : CacheWorld) (scan_path : List String) (max_depth : Nat) :
    Option (List DeletableItem) :=
  match w.cacheFile with
  | none => none
  | some cache =>
    if cache.scan_path ≠ scan_path ∨ cache.max_depth ≠ max_depth then none
    else
      let stale : Bool :=
        match elapsedSecs w.now cache.scan_time with
        | some elapsed => decide (elapsed > CACHE_VALIDITY_SECONDS)
        | none => false
      if stale then none
      else some (cache.items.filter (fun item => w.pathExists item.path))

/-- `save_cache` (src/cache.rs lines 131-143): overwrite the cache file
with the parameters, the current timestamp and the items (the best-effort
`fs::write` modelled as succeeding). -/
def save_cache (w : CacheWorld) (scan_path : List String) (max_depth : Nat)
    (items : List DeletableItem) : CacheWorld :=
  { w with
    cacheFile := some
      { scan_path := scan_path, scan_time := w.now, items := items, max_depth := max_depth } }

/-! ## The indexed scan (src/scanner.rs `scan_directory_macos`)

`mdfind` is an external tool: its availability and its per-query output are
inputs of the model.  `find_with_mdfind` keeps only hits that still exist;
`canonicalize` is the identity on the model's already-absolute paths. -/

/-- The macOS world: the filesystem, whether `mdfind -version` succeeds,
and the raw output of `mdfind -onlyin base "kMDItemFSName == name"` per
base and name (`Except` for execution failure / non-zero exit). -/
structure MacWorld where
  fs : FS
  mdfindAvailable : Bool
  mdfind : List String → String → Except String (List (List String))

/-- `find_with_mdfind` (src/scanner.rs lines 396-416): run the query and
drop hits that no longer exist. -/
def find_with_mdfind (w : MacWorld) (base : List String) (name : String) :
    Except String (List (List String)) :=
  (w.mdfind base name).map (fun l => l.filter (fun p => existsPath w.fs p))

/-- The fixed Spotlight query list (src/scanner.rs lines 434-457). -/
def spotlightQueries : List (String × Category) :=
  [ ("target", .RustTarget),
    ("node_modules", .NodeModules),
    ("__pycache__", .PythonCache),
    ("build", .BuildCache),
    (".gradle", .GradleBuild),
    ("venv", .PythonCache),
    (".venv", .PythonCache),
    ("dist", .BuildCache),
    ("vendor", .GoVendor),
    ("CMakeFiles", .CCache),
    ("bin", .DotNetBuild),
    ("obj", .DotNetBuild),
    (".build", .SwiftBuild),
    ("DerivedData", .SwiftBuild),
    (".idea", .IDECache),
    (".vscode", .IDECache),
    (".vs", .IDECache),
    (".bundle", .RubyGems),
    (".DS_Store", .OSJunk),
    ("Thumbs.db", .OSJunk),
    (".sass-cache", .TempFiles),
    (".parcel-cache", .TempFiles) ]

/-- The nested-hit check of `scan_directory_macos` (lines 512-527): walk
from `cur` up towards `base` (exclusive), skipping the hit if any strict
ancestor strictly below `base` is deletable.  The source's `while` loop is
bounded by the chain length, realised with explicit fuel so the definition
stays structurally recursive. -/
def nestedCheckAux (fs : FS) (base : List String) : Nat → List String → Bool
  | 0, _ => false
  | fuel + 1, cur =>
    if cur == base then false
    else if !(base.isPrefixOf cur) then false
    else if (is_deletable fs cur).isSome then true
    else
      match cur with
      | [] => false
      | _ :: _ => nestedCheckAux fs base fuel cur.dropLast

/-- The nested-hit check started with enough fuel for the whole chain. -/
def nestedCheck (fs : FS) (base cur : List String) : Bool :=
  nestedCheckAux fs base (cur.length + 1) cur

/-- The category-specific filter arm of `scan_directory_macos` (lines
488-510): the Rust-target query re-checks its own category, the `vendor`
query accepts the PHP/Go/Ruby trio, every other query requires the
detected category to equal the query's. -/
def macCatOK (cat detected : Category) : Bool :=
  match cat with
  | .RustTarget => detected == Category.RustTarget
  | .GoVendor =>
    detected == Category.GoVendor || detected == Category.PHPVendor ||
      detected == Category.RubyGems
  | _ => detected == cat

/-- The per-hit filter of `scan_directory_macos` (lines 473-531): a hit
must lie under the base, still be a directory, be re-classified by
`is_deletable` (the detected category is authoritative), agree with the
query's category, and must not be nested inside another deletable
directory. -/
def macFilter (fs : FS) (base : List String) (cat : Category) (p : List String) :
    Option (List String × Category) :=
  if !(base.isPrefixOf p) then none
  else if !(isDir fs p) then none
  else
    match is_deletable fs p with
    | none => none
    | some detected =>
      if !(macCatOK cat detected) then none
      else
        match parentDir p with
        | some par => if nestedCheck fs base par then none else some (p, detected)
        | none => some (p, detected)

/-- `scan_directory_macos` (src/scanner.rs lines 419-580): fan out the
Spotlight queries (a failed query contributing nothing via
`unwrap_or_default`), filter each hit, then size the survivors.  The
function always returns `Ok`. -/
def scan_directory_macos (w : MacWorld) (base : List String) : List DeletableItem :=
  (spotlightQueries.flatMap (fun nc =>
    (match find_with_mdfind w base nc.1 with
      | .ok l => l
      | .error _ => []).filterMap (macFilter w.fs base nc.2))).map (mkItem w.fs)

/-- `try_indexed_scan`, macOS variant (src/scanner.rs lines 583-594):
error when `mdfind -version` cannot run, otherwise the (always-`Ok`)
indexed scan. -/
def try_indexed_scan (w : MacWorld) (base : List String) (_max_depth : Nat) :
    Except String (List DeletableItem) :=
  if !w.mdfindAvailable then .error "mdfind not available"
  else .ok (scan_directory_macos w base)

/-- `try_indexed_scan`, non-macOS variant (src/scanner.rs lines 596-599). -/
def try_indexed_scan_other (_path : List String) (_max_depth : Nat) (_quiet : Bool) :
    Except String (List DeletableItem) :=
  .error "System indexing only supported on macOS currently"

/-! ## The CLI handlers (src/main.rs `handle_scan` / `handle_clean`)

Modelled as the ordered trace of the externally visible steps each handler
performs; `perform_scan` either loads a valid cache or runs a scan engine
and saves the result (which engine ran does not matter for the claims
about ordering).  `ui::show_error` followed by `process::exit(1)` is a
terminal `fatalError` event. -/

/-- Externally visible steps of a scan/clean invocation. -/
inductive CliEvent where
  | scanPerformed
  | cacheLoaded
  | cacheSaved
  | sizeFilterApplied
  | fatalError
  | resultsOutput
  | cleanProceeded
deriving DecidableEq, Repr

/-- `perform_scan` (src/main.rs lines 24-96): cache hit, or fresh scan
followed by a cache write. -/
def perform_scan_trace (cacheHit : Bool) : List CliEvent :=
  if cacheHit then [.cacheLoaded] else [.scanPerformed, .cacheSaved]

/-- `handle_scan` (src/main.rs lines 99-188): path preconditions, then
`perform_scan`, then — only afterwards — the `min_size` parse (fatal exit
on error), then output. -/
def handle_scan_trace (pathExists pathIsDir cacheHit : Bool) (min_size : Option String) :
    List CliEvent :=
  if !pathExists then [.fatalError]
  else if !pathIsDir then [.fatalError]
  else
    let t := perform_scan_trace cacheHit
    match min_size with
    | none => t ++ [.resultsOutput]
    | some s =>
      match parse_size s with
      | .ok _ => t ++ [.sizeFilterApplied, .resultsOutput]
      | .error _ => t ++ [.fatalError]

/-- `handle_clean` (src/main.rs lines 192-348): identical preconditions,
scan and `min_size` handling; the category selection / deletion tail is
abstracted into one `cleanProceeded` event. -/
def handle_clean_trace (pathExists pathIsDir cacheHit : Bool) (min_size : Option String) :
    List CliEvent :=
  if !pathExists then [.fatalError]
  else if !pathIsDir then [.fatalError]
  else
    let t := perform_scan_trace cacheHit
    match min_size with
    | none => t ++ [.cleanProceeded]
    | some s =>
      match parse_size s with
      | .ok _ => t ++ [.sizeFilterApplied, .cleanProceeded]
      | .error _ => t ++ [.fatalError]

/-! ## Concrete worlds used by the claim theorems and witnesses -/

/-- The tree of the end-to-end scenario: `proj/Cargo.toml` next to
`proj/target`, with `proj/target/debug/deps` nested inside and regular
files of 100 and 200 bytes under `target`. -/
def projFS : FS :=
  [ ⟨["r"], .dir⟩,
    ⟨["r", "proj"], .dir⟩,
    ⟨["r", "proj", "Cargo.toml"], .file 10⟩,
    ⟨["r", "proj", "target"], .dir⟩,
    ⟨["r", "proj", "target", "f1.bin"], .file 100⟩,
    ⟨["r", "proj", "target", "debug"], .dir⟩,
    ⟨["r", "proj", "target", "debug", "deps"], .dir⟩,
    ⟨["r", "proj", "target", "debug", "deps", "f2.bin"], .file 200⟩ ]

/-- A tree whose scan root `r/node_modules` is itself deletable and
contains a deletable `.idea` directory deeper inside. -/
def nmFS : FS :=
  [ ⟨["r"], .dir⟩,
    ⟨["r", "node_modules"], .dir⟩,
    ⟨["r", "node_modules", "app"], .dir⟩,
    ⟨["r", "node_modules", "app", ".idea"], .dir⟩ ]

/-- A macOS world over `nmFS` whose Spotlight index reports the nested
`.idea` directory. -/
def nmMac : MacWorld :=
  { fs := nmFS
    mdfindAvailable := true
    mdfind := fun _ q =>
      if q == ".idea" then .ok [["r", "node_modules", "app", ".idea"]] else .ok [] }

/-- A macOS world in which `mdfind` is runnable but every index query
fails (non-zero exit). -/
def failMac : MacWorld :=
  { fs := [], mdfindAvailable := true, mdfind := fun _ _ => .error "mdfind failed: boom" }

/-- A macOS world in which `mdfind` itself is unavailable. -/
def noMdfindMac : MacWorld :=
  { fs := [], mdfindAvailable := false, mdfind := fun _ _ => .ok [] }

/-- A tree for the pruning-invariant witness of the walking engine: the
scan root `w/node_modules` is deletable and has a deletable `dist`
directory strictly inside. -/
def wFS : FS :=
  [ ⟨["w", "node_modules"], .dir⟩,
    ⟨["w", "node_modules", "pkg"], .dir⟩,
    ⟨["w", "node_modules", "pkg", "dist"], .dir⟩ ]

/-- A macOS world for the pruning-invariant witness of the indexed engine:
base `r` is not deletable, Spotlight reports `r/app/.idea`, and
`r/proj/dist` is a deletable directory elsewhere in the tree. -/
def macW2 : MacWorld :=
  { fs :=
      [ ⟨["r"], .dir⟩,
        ⟨["r", "app"], .dir⟩,
        ⟨["r", "app", ".idea"], .dir⟩,
        ⟨["r", "proj"], .dir⟩,
        ⟨["r", "proj", "dist"], .dir⟩ ]
    mdfindAvailable := true
    mdfind := fun _ q => if q == ".idea" then .ok [["r", "app", ".idea"]] else .ok [] }

/-- A concrete cache world: a record scanned at second 1000 over path
`["p"]` with depth 5 and one item, every path existing on disk. -/
def cacheRecord : ScanCache :=
  { scan_path := ["p"]
    scan_time := 1000
    items := [⟨["p", "node_modules"], 42, .NodeModules, "p"⟩]
    max_depth := 5 }

/-! ## C9 — size-filter parsing values -/

/-- C9: the size-filter parser maps "100MB" to 104857600, "1GB" to
1073741824 and suffixless "500" to 500, and rejects "abc" (which, after
uppercasing and stripping the trailing "B", fails numeric parsing). -/
theorem c9_parse_size_values :
    parse_size "100MB" = .ok 104857600 ∧
      parse_size "1GB" = .ok 1073741824 ∧
        parse_size "500" = .ok 500 ∧
          parse_size "abc" = .error "Invalid size format: ABC" := by
  refine ⟨by decide, by decide, by decide, by decide⟩

/-! ## C1 — end-to-end walking scan of the `proj/target` tree -/

/-- C1 (code bug evaluation): on the end-to-end tree the classifier does
mark `proj/target` as a Rust target whose recursive size is 300 bytes, yet
`scan_directory` returns no items at all: walkdir's `filter_entry` drops a
deletable entry from the iteration instead of merely not descending into
it, so the matched directory is never recorded as a candidate. -/
theorem c1_walk_scan_drops_matched_target :
    is_deletable projFS ["r", "proj", "target"] = some .RustTarget ∧
      calculate_dir_size_parallel projFS ["r", "proj", "target"] = 300 ∧
        scan_directory projFS ["r"] 10 = [] := by
  refine ⟨by decide, by decide, by decide⟩

/-! ## Cache claims C3, C4, C10 -/

/-- C3: `load_cache` returns `None` whenever more than 300 seconds have
elapsed since the stored `scan_time`, and at exactly 299 elapsed seconds
(with matching parameters and all item paths still existing) returns
`Some` of the unchanged item list. -/
theorem c3_cache_staleness_boundary :
    (∀ (w : CacheWorld) (p : List String) (d : Nat) (c : ScanCache),
        w.cacheFile = some c → w.now - c.scan_time > 300 →
          load_cache w p d = none) ∧
      (∀ (w : CacheWorld) (p : List String) (d : Nat) (c : ScanCache),
          w.cacheFile = some c → c.scan_path = p → c.max_depth = d →
            w.now - c.scan_time = 299 →
              (∀ i ∈ c.items, w.pathExists i.path = true) →
                load_cache w p d = some c.items) := by
  constructor
  · intro w p d c hc hold
    have hle : c.scan_time ≤ w.now := by omega
    simp only [load_cache, hc, elapsedSecs, hle, if_pos]
    split
    · rfl
    · simp [CACHE_VALIDITY_SECONDS, hold]
  · intro w p d c hc hp hd h299 hex
    have hle : c.scan_time ≤ w.now := by omega
    simp only [load_cache, hc, elapsedSecs, hle, if_pos, h299]
    rw [if_neg (by simp [hp, hd]), if_neg (by simp [CACHE_VALIDITY_SECONDS])]
    rw [List.filter_eq_self.mpr hex]

/-- Witness for C3 at a concrete world: the 1000-second record is stale at
second 1301 and is served unchanged at second 1299. -/
theorem c3_cache_staleness_boundary_witness :
    load_cache ⟨some cacheRecord, 1301, fun _ => true⟩ ["p"] 5 = none ∧
      load_cache ⟨some cacheRecord, 1299, fun _ => true⟩ ["p"] 5 = some cacheRecord.items := by
  constructor
  · exact c3_cache_staleness_boundary.1 ⟨some cacheRecord, 1301, fun _ => true⟩ ["p"] 5
      cacheRecord rfl (by decide)
  · exact c3_cache_staleness_boundary.2 ⟨some cacheRecord, 1299, fun _ => true⟩ ["p"] 5
      cacheRecord rfl rfl rfl (by decide) (by decide)

/-- C4: saving a scan result and immediately loading it back with the same
path and depth yields exactly the saved items, filtered only by whether
each item's path still exists. -/
theorem c4_cache_roundtrip (w : CacheWorld) (p : List String) (d : Nat)
    (items : List DeletableItem) (_hne : items ≠ []) :
    load_cache (save_cache w p d items) p d =
      some (items.filter (fun i => w.pathExists i.path)) := by
  simp [load_cache, save_cache, elapsedSecs, CACHE_VALIDITY_SECONDS]

/-- Witness for C4: a concrete one-item save/load round trip in which the
item's path no longer exists, so the loaded list is empty. -/
theorem c4_cache_roundtrip_witness :
    load_cache (save_cache ⟨none, 7, fun _ => false⟩ ["q"] 3
        [⟨["q", "dist"], 5, .BuildCache, "q"⟩]) ["q"] 3 = some [] := by
  have h := c4_cache_roundtrip ⟨none, 7, fun _ => false⟩ ["q"] 3
    [⟨["q", "dist"], 5, .BuildCache, "q"⟩] (by decide)
  simpa using h

/-- C10: when the stored `scan_time` lies in the future of the current
clock, `SystemTime::elapsed` fails, `load_cache` skips the staleness check
and serves the cache (parameters matching, items filtered by existence)
no matter how large the time difference is. -/
theorem c10_future_cache_never_stale (w : CacheWorld) (p : List String) (d : Nat)
    (c : ScanCache) (hc : w.cacheFile = some c) (hfut : w.now < c.scan_time)
    (hp : c.scan_path = p) (hd : c.max_depth = d) :
    load_cache w p d = some (c.items.filter (fun i => w.pathExists i.path)) := by
  have hnle : ¬c.scan_time ≤ w.now := by omega
  simp only [load_cache, hc, elapsedSecs, hnle, if_neg, ite_false]
  rw [if_neg (by simp [hp, hd])]
  simp

/-- Witness for C10: a record timestamped a million seconds into the
future is served as valid at second 0. -/
theorem c10_future_cache_never_stale_witness :
    load_cache ⟨some ⟨["p"], 1000000, cacheRecord.items, 5⟩, 0, fun _ => true⟩ ["p"] 5 =
      some cacheRecord.items := by
  have h := c10_future_cache_never_stale
    ⟨some ⟨["p"], 1000000, cacheRecord.items, 5⟩, 0, fun _ => true⟩ ["p"] 5
    ⟨["p"], 1000000, cacheRecord.items, 5⟩ rfl (by decide) rfl rfl
  simpa using h

/-! ## C2 — the pruning invariant -/

/-- Every path yielded by the filtered walk is the start path, the scan
root, or unclassified: `filter_entry` admits only entries its predicate
accepts. -/
theorem mem_walkFiltered {fs : FS} {root : List String} :
    ∀ {fuel : Nat} {p q : List String}, q ∈ walkFiltered fs root fuel p →
      q = p ∨ q = root ∨ is_deletable fs q = none := by
  intro fuel
  induction fuel with
  | zero =>
    intro p q hq
    simp only [walkFiltered, List.mem_singleton] at hq
    exact Or.inl hq
  | succ n ih =>
    intro p q hq
    simp only [walkFiltered, List.mem_cons] at hq
    rcases hq with h | h
    · exact Or.inl h
    · split at h
      · simp only [List.mem_flatMap] at h
        obtain ⟨c, _hc, hq⟩ := h
        split at hq
        · rename_i hcond
          rcases ih hq with h1 | h2
          · subst h1
            simp only [Bool.or_eq_true, beq_iff_eq, Option.isNone_iff_eq_none] at hcond
            rcases hcond with h | h
            · exact Or.inr (Or.inl h)
            · exact Or.inr (Or.inr h)
          · exact Or.inr h2
        · simp at hq
      · simp at h

/-- With `filter_entry` suppressing every classified entry, an item the
walking scan records can only be the scan root itself. -/
theorem scan_directory_mem_path {fs : FS} {root : List String} {d : Nat}
    {it : DeletableItem} (h : it ∈ scan_directory fs root d) : it.path = root := by
  simp only [scan_directory, List.mem_map] at h
  obtain ⟨pc, hpc, rfl⟩ := h
  simp only [scan_candidates, List.mem_filterMap] at hpc
  obtain ⟨q, hq, hsome⟩ := hpc
  simp only [Option.map_eq_some'] at hsome
  obtain ⟨c, hdel, rfl⟩ := hsome
  simp only [walkEntries] at hq
  split at hq
  · rcases mem_walkFiltered hq with h | h | h
    · simp [mkItem, h]
    · simp [mkItem, h]
    · rw [hdel] at h; cases h
  · simp at hq

/-- A strict prefix is still a prefix after dropping the last element. -/
theorem prefix_dropLast {D cur : List String} (h : D <+: cur) (hne : D ≠ cur) :
    D <+: cur.dropLast := by
  obtain ⟨t, rfl⟩ := h
  match t with
  | [] => simp at hne
  | x :: xs =>
    rw [List.dropLast_append_of_ne_nil _ (by simp)]
    exact ⟨(x :: xs).dropLast, rfl⟩

/-- If the upward nested-hit walk from `cur` reports no deletable
ancestor, then no prefix of `cur` strictly between `base` and the hit is
deletable. -/
theorem nestedCheckAux_none {fs : FS} {base : List String} :
    ∀ (fuel : Nat) (cur : List String), cur.length < fuel →
      nestedCheckAux fs base fuel cur = false →
      ∀ D, D <+: cur → base <+: D → D ≠ base → is_deletable fs D = none := by
  intro fuel
  induction fuel with
  | zero => intro cur h; omega
  | succ n ih =>
    intro cur hlen hfalse D hDcur hbD hDb
    simp only [nestedCheckAux] at hfalse
    split at hfalse
    · rename_i hcb
      exfalso
      apply hDb
      have hcur : cur = base := by simpa using hcb
      subst hcur
      exact hDcur.eq_of_length (Nat.le_antisymm hDcur.length_le hbD.length_le)
    · split at hfalse
      · rename_i hnb
        exfalso
        have hpre : base.isPrefixOf cur = true :=
          List.isPrefixOf_iff_prefix.mpr (hbD.trans hDcur)
        simp [hpre] at hnb
      · split at hfalse
        · cases hfalse
        · rename_i hdel
          rcases eq_or_ne D cur with rfl | hne
          · cases hh : is_deletable fs D with
            | none => rfl
            | some v => rw [hh] at hdel; simp at hdel
          · match cur, hlen with
            | [], _ =>
              exact absurd (List.prefix_nil.mp hDcur) hne
            | x :: xs, hlen =>
              exact ih _ (by simpa [List.length_dropLast] using
                  Nat.lt_of_lt_of_le (by simp) (Nat.le_of_lt_succ hlen)) hfalse D
                (prefix_dropLast hDcur hne) hbD hDb

/-- Inversion of the per-hit filter: an accepted hit lies under the base,
is classified with the returned category, and passed the nested-hit
check. -/
theorem macFilter_some {fs : FS} {base : List String} {cat : Category}
    {p : List String} {pc : List String × Category} (h : macFilter fs base cat p = some pc) :
    pc.1 = p ∧ base <+: p ∧ is_deletable fs p = some pc.2 ∧
      (p = [] ∨ nestedCheck fs base p.dropLast = false) := by
  unfold macFilter at h
  split at h
  · cases h
  · split at h
    · cases h
    · rename_i hpre _
      have hbase : base <+: p := by
        simp only [Bool.not_eq_eq_eq_not, Bool.not_true] at hpre
        exact List.isPrefixOf_iff_prefix.mp (by simpa using hpre)
      split at h
      · cases h
      · rename_i detected hdet
        split at h
        · cases h
        · split at h
          · rename_i par hpar
            split at h
            · cases h
            · rename_i hnested
              cases h
              refine ⟨rfl, hbase, hdet, Or.inr ?_⟩
              cases p with
              | nil => simp [parentDir] at hpar
              | cons x xs =>
                simp only [parentDir, Option.some.injEq] at hpar
                subst hpar
                simpa using hnested
          · rename_i hpar
            cases h
            refine ⟨rfl, hbase, hdet, Or.inl ?_⟩
            cases p with
            | nil => rfl
            | cons x xs => simp [parentDir] at hpar

/-- Every item the indexed scan returns lies under the base and passed the
nested-hit check. -/
theorem scan_directory_macos_mem {w : MacWorld} {base : List String}
    {it : DeletableItem} (h : it ∈ scan_directory_macos w base) :
    base <+: it.path ∧
      (it.path = [] ∨ nestedCheck w.fs base it.path.dropLast = false) := by
  simp only [scan_directory_macos, List.mem_map] at h
  obtain ⟨pc, hpc, rfl⟩ := h
  simp only [List.mem_flatMap, List.mem_filterMap] at hpc
  obtain ⟨nc, _hnc, p, _hp, hfilter⟩ := hpc
  obtain ⟨hpc1, hbase, _hdet, hnest⟩ := macFilter_some hfilter
  rw [mkItem, hpc1]
  exact ⟨hbase, hnest⟩

/-- C2 (amended): the pruning invariant restricted to deletable
directories `D` of the scanned tree other than the scan root itself.  For
the walking engine it holds for every such `D` including the root; for
the indexed engine the scan root must be excluded (its descendants are
exempt from the nested-hit walk). -/
theorem c2_pruning_invariant_amended :
    (∀ (fs : FS) (root : List String) (d : Nat) (D : List String) (it : DeletableItem),
        it ∈ scan_directory fs root d → root <+: D → (is_deletable fs D).isSome →
          ¬(D <+: it.path ∧ D ≠ it.path)) ∧
      (∀ (w : MacWorld) (base D : List String) (it : DeletableItem),
          it ∈ scan_directory_macos w base → base <+: D → D ≠ base →
            (is_deletable w.fs D).isSome → ¬(D <+: it.path ∧ D ≠ it.path)) := by
  constructor
  · intro fs root d D it hit hrD _hD
    rintro ⟨hpre, hne⟩
    rw [scan_directory_mem_path hit] at hpre hne
    exact hne (hpre.eq_of_length (Nat.le_antisymm hpre.length_le hrD.length_le))
  · intro w base D it hit hbD hDb hD
    rintro ⟨hpre, hne⟩
    obtain ⟨hbase, hnest⟩ := scan_directory_macos_mem hit
    rcases hnest with hnil | hfalse
    · rw [hnil] at hpre
      exact hne (by simpa [hnil] using List.prefix_nil.mp hpre)
    · have hDdrop : D <+: it.path.dropLast := prefix_dropLast hpre hne
      have := nestedCheckAux_none (it.path.dropLast.length + 1) it.path.dropLast
        (Nat.lt_succ_self _) hfalse D hDdrop hbD hDb
      rw [this] at hD
      cases hD

/-- C2 (counterexample): scanning the deletable root `r/node_modules`
with the indexed engine returns the nested `r/node_modules/app/.idea` — a
strict descendant of a directory the classifier marks deletable — because
the nested-hit walk stops short of the scan root. -/
theorem c2_pruning_counterexample :
    is_deletable nmFS ["r", "node_modules"] = some .NodeModules ∧
      isDir nmFS ["r", "node_modules"] = true ∧
        scan_directory_macos nmMac ["r", "node_modules"] =
          [⟨["r", "node_modules", "app", ".idea"], 0, .IDECache, "app"⟩] ∧
          (["r", "node_modules"] <+: ["r", "node_modules", "app", ".idea"] ∧
            ["r", "node_modules"] ≠ ["r", "node_modules", "app", ".idea"]) := by
  refine ⟨by decide, by decide, by decide, by decide, by decide⟩

/-- Witness for C2 (amended), both engines applied at concrete scans with
a recorded item and a deletable non-root directory. -/
theorem c2_pruning_invariant_amended_witness :
    (¬((["w", "node_modules", "pkg", "dist"] : List String) <+:
          (⟨["w", "node_modules"], 0, Category.NodeModules, "w"⟩ : DeletableItem).path ∧
        (["w", "node_modules", "pkg", "dist"] : List String) ≠
          (⟨["w", "node_modules"], 0, Category.NodeModules, "w"⟩ : DeletableItem).path)) ∧
      (¬((["r", "proj", "dist"] : List String) <+:
            (⟨["r", "app", ".idea"], 0, Category.IDECache, "app"⟩ : DeletableItem).path ∧
          (["r", "proj", "dist"] : List String) ≠
            (⟨["r", "app", ".idea"], 0, Category.IDECache, "app"⟩ : DeletableItem).path)) := by
  constructor
  · exact c2_pruning_invariant_amended.1 wFS ["w", "node_modules"] 10
      ["w", "node_modules", "pkg", "dist"]
      ⟨["w", "node_modules"], 0, Category.NodeModules, "w"⟩
      (by decide) (by decide) (by decide)
  · exact c2_pruning_invariant_amended.2 macW2 ["r"] ["r", "proj", "dist"]
      ⟨["r", "app", ".idea"], 0, Category.IDECache, "app"⟩
      (by decide) (by decide) (by decide) (by decide)

/-! ## C5 — indexed-scan failure semantics -/

/-- C5 (counterexample): in a world where `mdfind` runs but every index
query fails, `try_indexed_scan` still returns a successful empty result —
the per-query failure is swallowed by `unwrap_or_default` instead of being
surfaced as an error. -/
theorem c5_query_failure_masked_counterexample :
    failMac.mdfind ["r"] "target" = .error "mdfind failed: boom" ∧
      failMac.mdfindAvailable = true ∧
        try_indexed_scan failMac ["r"] 10 = .ok [] := by
  refine ⟨rfl, rfl, by decide⟩

/-- C5 (amended): the adapter fails explicitly when the index tool itself
is unavailable (and always on non-macOS), but when the tool runs it always
returns success — individual index-query failures are treated as empty
query results, not surfaced. -/
theorem c5_indexed_scan_failure_amended :
    (∀ (w : MacWorld) (base : List String) (d : Nat), w.mdfindAvailable = false →
        try_indexed_scan w base d = .error "mdfind not available") ∧
      (∀ (w : MacWorld) (base : List String) (d : Nat), w.mdfindAvailable = true →
          try_indexed_scan w base d = .ok (scan_directory_macos w base)) ∧
        (∀ (p : List String) (d : Nat) (q : Bool),
            try_indexed_scan_other p d q =
              .error "System indexing only supported on macOS currently") := by
  refine ⟨?_, ?_, ?_⟩
  · intro w base d h; simp [try_indexed_scan, h]
  · intro w base d h; simp [try_indexed_scan, h]
  · intro p d q; rfl

/-- Witness for C5 (amended) at the concrete unavailable-tool and
failing-query worlds. -/
theorem c5_indexed_scan_failure_amended_witness :
    try_indexed_scan noMdfindMac ["r"] 10 = .error "mdfind not available" ∧
      try_indexed_scan failMac ["r"] 10 = .ok (scan_directory_macos failMac ["r"]) := by
  exact ⟨c5_indexed_scan_failure_amended.1 noMdfindMac ["r"] 10 rfl,
    c5_indexed_scan_failure_amended.2.1 failMac ["r"] 10 rfl⟩

/-! ## C6 — malformed minimum-size filter -/

/-- C6 (counterexample): with an existing directory path, no cache hit and
the malformed size string "abc", both handlers perform (and cache) the
full scan first and only then exit fatally on the parse error — the scan
is not prevented. -/
theorem c6_scan_before_size_parse_counterexample :
    parse_size "abc" = .error "Invalid size format: ABC" ∧
      handle_scan_trace true true false (some "abc") =
        [.scanPerformed, .cacheSaved, .fatalError] ∧
        handle_clean_trace true true false (some "abc") =
          [.scanPerformed, .cacheSaved, .fatalError] := by
  refine ⟨by decide, by decide, by decide⟩

/-- C6 (amended): a malformed minimum-size string is rejected and surfaced
as a fatal error — no results are output and no cleaning proceeds — but
only after `perform_scan` has completed (cache load, or full scan plus
cache write). -/
theorem c6_min_size_fatal_after_scan_amended :
    ∀ (cacheHit : Bool) (s e : String), parse_size s = .error e →
      handle_scan_trace true true cacheHit (some s) =
          perform_scan_trace cacheHit ++ [.fatalError] ∧
        handle_clean_trace true true cacheHit (some s) =
            perform_scan_trace cacheHit ++ [.fatalError] ∧
          CliEvent.resultsOutput ∉ handle_scan_trace true true cacheHit (some s) ∧
            CliEvent.cleanProceeded ∉ handle_clean_trace true true cacheHit (some s) := by
  intro ch s e h
  refine ⟨?_, ?_, ?_, ?_⟩ <;>
    cases ch <;>
      simp [handle_scan_trace, handle_clean_trace, perform_scan_trace, h]

/-- Witness for C6 (amended) at the concrete input "abc" with no cache
hit. -/
theorem c6_min_size_fatal_after_scan_amended_witness :
    handle_scan_trace true true false (some "abc") =
        perform_scan_trace false ++ [.fatalError] ∧
      handle_clean_trace true true false (some "abc") =
          perform_scan_trace false ++ [.fatalError] ∧
        CliEvent.resultsOutput ∉ handle_scan_trace true true false (some "abc") ∧
          CliEvent.cleanProceeded ∉ handle_clean_trace true true false (some "abc") :=
  c6_min_size_fatal_after_scan_amended false "abc" "Invalid size format: ABC" (by decide)

/-! ## C7 — `vendor` disambiguation precedence -/

/-- A project with both `composer.json` and `go.mod` next to `vendor`:
the Composer rule wins. -/
def phpgoFS : FS :=
  [ ⟨["a"], .dir⟩,
    ⟨["a", "composer.json"], .file 1⟩,
    ⟨["a", "go.mod"], .file 1⟩,
    ⟨["a", "vendor"], .dir⟩ ]

/-- A project with only `go.mod` next to `vendor`. -/
def goFS : FS :=
  [ ⟨["b"], .dir⟩,
    ⟨["b", "go.mod"], .file 1⟩,
    ⟨["b", "vendor"], .dir⟩ ]

set_option maxHeartbeats 1000000 in
/-- C7: a `vendor` directory whose parent holds `composer.json` is
classified PHP (the Composer check precedes the Go check, so this holds
even when Go manifests are also present); one whose parent lacks
`composer.json` but holds `go.mod` or `go.sum` is classified Go; and no
directory named `vendor` is ever claimed by the lowest-priority generic
build/dist/out rule. -/
theorem c7_vendor_precedence :
    (∀ (fs : FS) (p par : List String), parentDir p = some par →
        p.getLast? = some "vendor" → isDir fs p = true →
          existsPath fs (par ++ ["composer.json"]) = true →
            is_deletable fs p = some .PHPVendor) ∧
      (∀ (fs : FS) (p par : List String), parentDir p = some par →
          p.getLast? = some "vendor" → isDir fs p = true →
            existsPath fs (par ++ ["composer.json"]) = false →
              (existsPath fs (par ++ ["go.mod"]) = true ∨
                  existsPath fs (par ++ ["go.sum"]) = true) →
                is_deletable fs p = some .GoVendor) ∧
        (∀ (fs : FS) (p : List String), p.getLast? = some "vendor" →
            is_deletable fs p ≠ some .BuildCache) := by
  refine ⟨?_, ?_, ?_⟩
  · intro fs p par hpar hname hdir hcomp
    simp only [is_deletable, hname, hdir]
    simp [is_composer_vendor, hpar, hcomp]
  · intro fs p par hpar hname hdir hcomp hgo
    simp only [is_deletable, hname, hdir]
    simp only [String.reduceBEq, Bool.false_and, Bool.and_false, Bool.true_and, if_false,
      Bool.false_eq_true, ite_false]
    have hc : is_composer_vendor fs p = false := by
      simp [is_composer_vendor, hpar, hcomp]
    have hg : is_go_vendor fs p = true := by
      rcases hgo with h | h <;> simp [is_go_vendor, hpar, h]
    simp [hc, hg]
  · intro fs p hname
    simp only [is_deletable, hname]
    simp only [String.reduceBEq, Bool.false_and, Bool.and_false, Bool.true_and, if_false,
      Bool.false_eq_true, ite_false]
    simp only [(by decide : strEndsWith "vendor" ".pyc" = false),
      (by decide : strEndsWith "vendor" ".pyo" = false),
      (by decide : strEndsWith "vendor" ".o" = false),
      (by decide : strEndsWith "vendor" ".a" = false),
      (by decide : strEndsWith "vendor" ".log" = false),
      (by decide : strEndsWith "vendor" ".tmp" = false),
      (by decide : strEndsWith "vendor" ".temp" = false),
      Bool.false_or, Bool.or_false, if_false, Bool.false_eq_true, ite_false]
    split
    · simp
    · split
      · simp
      · split
        · simp
        · split
          · simp
          · split
            · simp
            · split
              · simp
              · simp

/-- Witness for C7: both-manifest and Go-only projects classified at
concrete trees, and the generic-rule exclusion at the same `vendor`
directory. -/
theorem c7_vendor_precedence_witness :
    is_deletable phpgoFS ["a", "vendor"] = some .PHPVendor ∧
      is_deletable goFS ["b", "vendor"] = some .GoVendor ∧
        is_deletable phpgoFS ["a", "vendor"] ≠ some .BuildCache := by
  refine ⟨?_, ?_, ?_⟩
  · exact c7_vendor_precedence.1 phpgoFS ["a", "vendor"] ["a"] rfl rfl (by decide) (by decide)
  · exact c7_vendor_precedence.2.1 goFS ["b", "vendor"] ["b"] rfl rfl (by decide) (by decide)
      (Or.inl (by decide))
  · exact c7_vendor_precedence.2.2 phpgoFS ["a", "vendor"] rfl

/-! ## C8 — the .NET bin/obj pairing check -/

set_option maxHeartbeats 1000000 in
/-- When the name-keyed arms preceding `bin`/`obj` fail and
`is_dotnet_build` holds, the classifier reaches and takes the .NET arms. -/
theorem is_deletable_binobj_pos {fs : FS} {p : List String}
    (hname : p.getLast? = some "bin" ∨ p.getLast? = some "obj")
    (hdir : isDir fs p = true) (hdnb : is_dotnet_build fs p = true) :
    is_deletable fs p = some .DotNetBuild := by
  rcases hname with h | h <;>
  · simp only [is_deletable, h, hdir]
    simp only [String.reduceBEq, Bool.false_and, Bool.and_false, Bool.true_and, if_false,
      Bool.false_eq_true, ite_false]
    simp [hdnb]

set_option maxHeartbeats 1000000 in
/-- Without `is_dotnet_build`, nothing else classifies a `bin`/`obj`
directory as .NET build output (the remaining arms yield other categories
or nothing). -/
theorem is_deletable_binobj_neg {fs : FS} {p : List String}
    (hname : p.getLast? = some "bin" ∨ p.getLast? = some "obj")
    (hdnb : is_dotnet_build fs p = false) :
    is_deletable fs p ≠ some .DotNetBuild := by
  rcases hname with h | h <;>
  · simp only [is_deletable, h]
    simp only [String.reduceBEq, Bool.false_and, Bool.and_false, Bool.true_and, if_false,
      Bool.false_eq_true, ite_false, hdnb]
    simp only [(by decide : strEndsWith "bin" ".pyc" = false),
      (by decide : strEndsWith "bin" ".pyo" = false),
      (by decide : strEndsWith "bin" ".o" = false),
      (by decide : strEndsWith "bin" ".a" = false),
      (by decide : strEndsWith "bin" ".log" = false),
      (by decide : strEndsWith "bin" ".tmp" = false),
      (by decide : strEndsWith "bin" ".temp" = false),
      (by decide : strEndsWith "obj" ".pyc" = false),
      (by decide : strEndsWith "obj" ".pyo" = false),
      (by decide : strEndsWith "obj" ".o" = false),
      (by decide : strEndsWith "obj" ".a" = false),
      (by decide : strEndsWith "obj" ".log" = false),
      (by decide : strEndsWith "obj" ".tmp" = false),
      (by decide : strEndsWith "obj" ".temp" = false),
      Bool.false_or, Bool.or_false, if_false, Bool.false_eq_true, ite_false]
    split
    · simp
    · split
      · simp
      · split
        · simp
        · split <;> simp

/-- `is_dotnet_build` at a `bin` directory is exactly "project file in the
parent and sibling `obj` exists". -/
theorem is_dotnet_build_bin_eq (fs : FS) {p par : List String}
    (hpar : parentDir p = some par) (hname : p.getLast? = some "bin") :
    is_dotnet_build fs p =
      ((isDir fs par && (childNames fs par).any (fun s =>
          strEndsWith s ".csproj" || strEndsWith s ".vbproj" || strEndsWith s ".fsproj")) &&
        existsPath fs (par ++ ["obj"])) := by
  simp only [is_dotnet_build, hpar, hname]
  cases hpf : (isDir fs par && (childNames fs par).any (fun s =>
      strEndsWith s ".csproj" || strEndsWith s ".vbproj" || strEndsWith s ".fsproj")) <;>
    simp [hpf]

/-- `is_dotnet_build` at an `obj` directory is exactly "project file in
the parent and sibling `bin` exists". -/
theorem is_dotnet_build_obj_eq (fs : FS) {p par : List String}
    (hpar : parentDir p = some par) (hname : p.getLast? = some "obj") :
    is_dotnet_build fs p =
      ((isDir fs par && (childNames fs par).any (fun s =>
          strEndsWith s ".csproj" || strEndsWith s ".vbproj" || strEndsWith s ".fsproj")) &&
        existsPath fs (par ++ ["bin"])) := by
  simp only [is_dotnet_build, hpar, hname]
  cases hpf : (isDir fs par && (childNames fs par).any (fun s =>
      strEndsWith s ".csproj" || strEndsWith s ".vbproj" || strEndsWith s ".fsproj")) <;>
    simp [hpf]

/-- C8: a directory named `bin` (resp. `obj`) is classified as .NET build
output if and only if its parent's listing contains a `.csproj`/`.vbproj`
/`.fsproj` project file and the sibling counterpart `obj` (resp. `bin`)
exists. -/
theorem c8_dotnet_pairing_iff :
    ∀ (fs : FS) (p par : List String), parentDir p = some par → isDir fs p = true →
      (p.getLast? = some "bin" →
          (is_deletable fs p = some .DotNetBuild ↔
            ((isDir fs par && (childNames fs par).any (fun s =>
                strEndsWith s ".csproj" || strEndsWith s ".vbproj" ||
                  strEndsWith s ".fsproj")) = true ∧
              existsPath fs (par ++ ["obj"]) = true))) ∧
        (p.getLast? = some "obj" →
            (is_deletable fs p = some .DotNetBuild ↔
              ((isDir fs par && (childNames fs par).any (fun s =>
                  strEndsWith s ".csproj" || strEndsWith s ".vbproj" ||
                    strEndsWith s ".fsproj")) = true ∧
                existsPath fs (par ++ ["bin"]) = true))) := by
  intro fs p par hpar hdir
  constructor
  · intro hname
    have heq := is_dotnet_build_bin_eq fs hpar hname
    constructor
    · intro hdel
      cases hdnb : is_dotnet_build fs p with
      | false => exact absurd hdel (is_deletable_binobj_neg (Or.inl hname) hdnb)
      | true =>
        rw [hdnb] at heq
        constructor
        · cases hx : (isDir fs par && (childNames fs par).any (fun s =>
              strEndsWith s ".csproj" || strEndsWith s ".vbproj" || strEndsWith s ".fsproj"))
          · rw [hx] at heq; simp at heq
          · rfl
        · cases hy : existsPath fs (par ++ ["obj"])
          · rw [hy] at heq; simp at heq
          · rfl
    · rintro ⟨h1, h2⟩
      exact is_deletable_binobj_pos (Or.inl hname) hdir (by rw [heq, h1, h2]; rfl)
  · intro hname
    have heq := is_dotnet_build_obj_eq fs hpar hname
    constructor
    · intro hdel
      cases hdnb : is_dotnet_build fs p with
      | false => exact absurd hdel (is_deletable_binobj_neg (Or.inr hname) hdnb)
      | true =>
        rw [hdnb] at heq
        constructor
        · cases hx : (isDir fs par && (childNames fs par).any (fun s =>
              strEndsWith s ".csproj" || strEndsWith s ".vbproj" || strEndsWith s ".fsproj"))
          · rw [hx] at heq; simp at heq
          · rfl
        · cases hy : existsPath fs (par ++ ["bin"])
          · rw [hy] at heq; simp at heq
          · rfl
    · rintro ⟨h1, h2⟩
      exact is_deletable_binobj_pos (Or.inr hname) hdir (by rw [heq, h1, h2]; rfl)

/-- A .NET project layout: `app.csproj` with both `bin` and `obj`. -/
def dotFS : FS :=
  [ ⟨["s"], .dir⟩,
    ⟨["s", "app.csproj"], .file 1⟩,
    ⟨["s", "bin"], .dir⟩,
    ⟨["s", "obj"], .dir⟩ ]

/-- Witness for C8: both directions of the pairing applied at a concrete
.NET project tree. -/
theorem c8_dotnet_pairing_iff_witness :
    is_deletable dotFS ["s", "bin"] = some .DotNetBuild ∧
      is_deletable dotFS ["s", "obj"] = some .DotNetBuild := by
  constructor
  · exact ((c8_dotnet_pairing_iff dotFS ["s", "bin"] ["s"] rfl (by decide)).1 rfl).mpr
      ⟨by decide, by decide⟩
  · exact ((c8_dotnet_pairing_iff dotFS ["s", "obj"] ["s"] rfl (by decide)).2 rfl).mpr
      ⟨by decide, by decide⟩

end Gigabroom
